import Mathlib

/-!
Shallow embedding of the order-fulfillment webhook service
(`src/index.js`, `src/services/shopify.js`, `src/services/maya.js`,
and the later revision of `services/shopify.js` that adds the order
processing lock).  JavaScript numbers that matter are modelled as `Int`;
a value that would be `NaN` or absent is modelled with `Option`, and the
places where the source coerces such a value to `Number.POSITIVE_INFINITY`
use the extended type `ERem` below.  Throwing async calls are modelled as
`Except Unit` results supplied by an environment record, and the handler
is a pure function from the order payload and that environment to an HTTP
status plus a trace of externally visible effects.
-/

namespace QEsim

/-- A JavaScript number that is either a finite integer or
`Number.POSITIVE_INFINITY` (the coercion the top-up loop applies to a
non-finite `data_bytes_remaining` or an unparseable `start_time`). -/
inductive ERem where
  | fin (n : Int)
  | inf
  deriving DecidableEq, Repr

/-- Strict comparison on `ERem`; `inf` is greater than every finite value. -/
def ERem.lt : ERem → ERem → Bool
  | .fin a, .fin b => a < b
  | .fin _, .inf  => true
  | .inf,  _      => false

/-- `toInt_` from the top-up flow in `src/index.js`: `Number(v)` with a
non-finite result replaced by positive infinity at the use site. -/
def optRem : Option Int → ERem
  | none => .inf
  | some n => .fin n

/-- `timeValue_` from the top-up flow in `src/index.js`: `Date.parse` of the
start time, with an unparseable date mapped to positive infinity.  The
parse result itself is abstracted as an `Option Int` field. -/
def timeValue : Option Int → ERem
  | none => .inf
  | some t => .fin t

/-- `c` is one of the whitespace characters `trim` strips. -/
def isWsChar (c : Char) : Bool := c = ' ' || c = '\t' || c = '\n' || c = '\r'

/-- `String.prototype.trim`. -/
def strTrim (s : String) : String :=
  ⟨((s.data.dropWhile isWsChar).reverse.dropWhile isWsChar).reverse⟩

/-- `String.prototype.toLowerCase`. -/
def strLower (s : String) : String := ⟨s.data.map Char.toLower⟩

/-- `String.prototype.toUpperCase`. -/
def strUpper (s : String) : String := ⟨s.data.map Char.toUpper⟩

/-- `normId` from `src/index.js`: `String(x || "").trim().toLowerCase()`. -/
def normId (s : String) : String := strLower (strTrim s)

/-- `isActivated_` from `src/index.js` (also `isActivated` in
`pickCurrentPlan`): the activation date is truthy and is not the
`0000-00-00 00:00:00` sentinel. -/
def isActivatedDate (da : String) : Bool :=
  da ≠ "" && da ≠ "0000-00-00 00:00:00"

/-- Substring test on characters, modelling `String.prototype.includes`. -/
def charsContain (hay needle : List Char) : Bool :=
  (List.range (hay.length + 1)).any fun i => needle.isPrefixOf (hay.drop i)

/-- `hay.includes(needle)` on strings. -/
def strIncludes (hay needle : String) : Bool :=
  charsContain hay.data needle.data

/-- A plan attached to a provisioned eSIM, as read from the Maya customer
details in the top-up flow (`src/index.js`).  `planTypeId` is the string
`p?.plan_type?.id` with `""` for a missing value; `dataBytesRemaining` is
the parsed number with `none` for a non-finite parse; `startTime` is the
`Date.parse` result of `p?.start_time` with `none` for an unparseable
date. -/
structure TPlan where
  id : String
  planTypeId : String
  dataBytesRemaining : Option Int
  dateActivated : String
  startTime : Option Int
  deriving DecidableEq, Repr

/-- An eSIM from the Maya customer details (`customer.esims`). -/
structure TEsim where
  iccid : String
  uid : String
  state : String
  serviceStatus : String
  plans : List TPlan
  deriving DecidableEq, Repr

/-- The filter over `customer.esims` in the top-up flow: an eSIM whose
`state` or `service_status` contains `terminated` or `cancel`
(lower-cased) is excluded. -/
def esimExcluded (e : TEsim) : Bool :=
  strIncludes (strLower e.state) "terminated" || strIncludes (strLower e.state) "cancel" ||
  strIncludes (strLower e.serviceStatus) "terminated" || strIncludes (strLower e.serviceStatus) "cancel"

/-- The candidate record built in the top-up loop of `src/index.js`. -/
structure Candidate where
  iccid : String
  esimUid : String
  planId : String
  planTypeId : String
  bytesRemaining : ERem
  activated : Bool
  startTime : Option Int
  deriving DecidableEq, Repr

/-- The candidate the inner loop of the top-up flow builds for a plan of a
surviving eSIM, or `none` when the plan has no plan-type id or its
normalized plan-type id differs from the normalized target. -/
def planCandidate (mayaPlanId : String) (e : TEsim) (p : TPlan) : Option Candidate :=
  if p.planTypeId = "" then none
  else if normId p.planTypeId ≠ normId mayaPlanId then none
  else some
    { iccid := e.iccid
      esimUid := e.uid
      planId := p.id
      planTypeId := p.planTypeId
      bytesRemaining := optRem p.dataBytesRemaining
      activated := isActivatedDate p.dateActivated
      startTime := p.startTime }

/-- All candidates of one surviving eSIM, in plan order. -/
def esimCandidates (mayaPlanId : String) (e : TEsim) : List Candidate :=
  e.plans.filterMap (planCandidate mayaPlanId e)

/-- All candidates the top-up loop enumerates, in loop order: surviving
eSIMs in order, plans of each in order. -/
def topUpCandidates (mayaPlanId : String) (esims : List TEsim) : List Candidate :=
  (esims.filter (fun e => !esimExcluded e)).flatMap (esimCandidates mayaPlanId)

/-- The replacement test of the top-up loop: `candidate` displaces the
current `best` exactly when the chain of comparisons in `src/index.js`
reaches an assignment — lowest remaining bytes first, then activated
over non-activated, then earliest start time. -/
def candBefore (c best : Candidate) : Bool :=
  if ERem.lt c.bytesRemaining best.bytesRemaining then true
  else if ERem.lt best.bytesRemaining c.bytesRemaining then false
  else if c.activated && !best.activated then true
  else if !c.activated && best.activated then false
  else ERem.lt (timeValue c.startTime) (timeValue best.startTime)

/-- One step of the `best` accumulation of the top-up loop. -/
def bestStep (best : Option Candidate) (c : Candidate) : Option Candidate :=
  match best with
  | none => some c
  | some b => if candBefore c b then some c else some b

/-- The `best` accumulation of the top-up loop over a candidate list. -/
def selectBest (cs : List Candidate) : Option Candidate :=
  cs.foldl bestStep none

/-- The complete target selection of the top-up flow: enumerate the
candidates and keep the best one. -/
def selectTopUpTarget (mayaPlanId : String) (esims : List TEsim) : Option Candidate :=
  selectBest (topUpCandidates mayaPlanId esims)

/-! ## Usage scanner (`/cron/check-usage` in `src/index.js`) -/

/-- A plan as seen by the usage scanner (`getMayaEsimPlansByIccid` output).
`dataQuotaBytes` and `dataBytesRemaining` model `Number(x || 0)` with
`none` for a value whose coercion is not finite; `startTime` models the
`Date.parse` result of `start_time` with `none` for an unparseable date
(the scanner maps that to `0` via `|| 0`). -/
structure UPlan where
  id : String
  dataQuotaBytes : Option Int
  dataBytesRemaining : Option Int
  dateActivated : String
  startTime : Option Int
  networkStatus : String
  deriving DecidableEq, Repr

/-- `isActiveNet` in `pickCurrentPlan`: the upper-cased network status is
`ACTIVE` or `ENABLED`. -/
def uIsActiveNet (p : UPlan) : Bool :=
  let ns := strUpper p.networkStatus
  ns = "ACTIVE" || ns = "ENABLED"

/-- `isActivated` in `pickCurrentPlan`. -/
def uIsActivated (p : UPlan) : Bool := isActivatedDate p.dateActivated

/-- `withRemaining` in `pickCurrentPlan`: keep plans whose
`Number(data_bytes_remaining || 0)` is positive. -/
def withRemaining (l : List UPlan) : List UPlan :=
  l.filter fun p => 0 < p.dataBytesRemaining.getD 0

/-- `Date.parse(String(start_time || "")) || 0` in the sort comparator of
`pickCurrentPlan`: an unparseable start time counts as `0`. -/
def timeOrZero (p : UPlan) : Int := p.startTime.getD 0

/-- The priority pools of `pickCurrentPlan`, in order: activated plans on
an active network with remaining data, activated plans with remaining
data, any plan with remaining data, and finally every plan. -/
def pickPools (plans : List UPlan) : List (List UPlan) :=
  [withRemaining (plans.filter fun p => uIsActivated p && uIsActiveNet p),
   withRemaining (plans.filter uIsActivated),
   withRemaining plans,
   plans]

/-- The pool `pickCurrentPlan` selects from: the first non-empty pool
(falling back to the full plan list). -/
def selectedPool (plans : List UPlan) : List UPlan :=
  ((pickPools plans).find? fun l => !l.isEmpty).getD plans

/-- Head of the stable descending sort by start time used by
`pickCurrentPlan`: the first element whose start time is maximal
(`[...pool].sort((a, b) => tb - ta)[0]` with a stable sort). -/
def firstNewest : List UPlan → Option UPlan
  | [] => none
  | p :: ps => some (ps.foldl (fun best q =>
      if timeOrZero best < timeOrZero q then q else best) p)

/-- `pickCurrentPlan` from `src/index.js`: `null` on an empty list,
otherwise the newest-by-start-time plan of the first non-empty priority
pool. -/
def pickCurrentPlan (plans : List UPlan) : Option UPlan :=
  if plans.isEmpty then none
  else firstNewest (selectedPool plans)

/-- The first pool as the specification sentence describes it — activated
plans on an active network, with no condition on remaining data.  Kept
beside `pickPools` to compare the specified selection with the
implemented one. -/
def specFirstPool (plans : List UPlan) : List UPlan :=
  plans.filter fun p => uIsActivated p && uIsActiveNet p

/-- `Math.round(n / d)` for a positive denominator: the floor of
`n / d + 1 / 2` (JavaScript rounds half toward positive infinity). -/
def jsRoundDiv (n d : Int) : Int := Int.fdiv (2 * n + d) (2 * d)

/-- The percentage computation of the usage scanner:
`Math.round((usedBytes / totalBytes) * 100)`. -/
def percentUsedOf (totalBytes remainingBytes : Int) : Int :=
  jsRoundDiv ((totalBytes - remainingBytes) * 100) totalBytes

/-- What the usage scan pass did for one asset of one order. -/
inductive ScanOutcome where
  | noPlan
  | invalidQuota
  | belowThreshold
  | alreadySent
  | missingEmail
  | sendFailed
  | alertSent (delivered : Bool)
  deriving DecidableEq, Repr

/-- Result of scanning one asset: the outcome, whether an alert email went
out, and the dedup-key set afterwards. -/
structure ScanResult where
  outcome : ScanOutcome
  alertDelivered : Bool
  sentKeys : List String
  deriving DecidableEq, Repr

/-- The dedup key of the usage alert in `src/index.js`:
`orderId:iccid:threshold`. -/
def dedupeKey (orderId iccid : String) (threshold : Int) : String :=
  orderId ++ ":" ++ iccid ++ ":" ++ toString threshold

/-- The per-asset body of the `/cron/check-usage` loop, from picking the
current plan to recording the dedup key.  `st` is the set of already
recorded dedup keys (`usageAlertSentKeys`), `send` is the outcome the
email call would have: `Except.error` for a thrown send,
`Except.ok delivered` for a send that returned.  The key is recorded
exactly when the send call returns without throwing. -/
def scanAsset (st : List String) (orderId iccid email : String)
    (plans : List UPlan) (threshold : Int) (send : Except Unit Bool) : ScanResult :=
  match pickCurrentPlan plans with
  | none => ⟨.noPlan, false, st⟩
  | some activePlan =>
    match activePlan.dataQuotaBytes with
    | none => ⟨.invalidQuota, false, st⟩
    | some totalBytes =>
      if totalBytes ≤ 0 then ⟨.invalidQuota, false, st⟩
      else
        let remainingBytes := activePlan.dataBytesRemaining.getD 0
        let percentUsed := percentUsedOf totalBytes remainingBytes
        if percentUsed < threshold then ⟨.belowThreshold, false, st⟩
        else
          let key := dedupeKey orderId iccid threshold
          if st.contains key then ⟨.alreadySent, false, st⟩
          else if email = "" then ⟨.missingEmail, false, st⟩
          else
            match send with
            | .error _ => ⟨.sendFailed, false, st⟩
            | .ok delivered => ⟨.alertSent delivered, delivered, key :: st⟩

/-- Repeated scan passes over the same asset with the same values; each
pass may see a different email-send outcome.  Returns the number of
delivered alerts and the final key set. -/
def iterScan (st : List String) (orderId iccid email : String)
    (plans : List UPlan) (threshold : Int) : List (Except Unit Bool) → Nat × List String
  | [] => (0, st)
  | send :: sends =>
    let r := scanAsset st orderId iccid email plans threshold send
    let rest := iterScan r.sentKeys orderId iccid email plans threshold sends
    ((if r.alertDelivered then 1 else 0) + rest.1, rest.2)

/-! ## Order-paid webhook handler (`src/index.js`) -/

/-- Result of `getOrderProcessedFlag` in `src/services/shopify.js`. -/
structure ProcessedFlagRec where
  processed : Bool
  processedAt : Option String
  deriving DecidableEq, Repr

/-- The metafield values of an order as returned by the processed-flag
query (`order` may itself be `null`, modelled by `Option OrderFlagNode`
at the call site). -/
structure OrderFlagNode where
  processed : Option String
  processedAt : Option String
  deriving DecidableEq, Repr

/-- `getOrderProcessedFlag` from `src/services/shopify.js`: a `null` order
yields `processed = false`; otherwise the `maya_processed` metafield is
trimmed, lower-cased and compared with `true`. -/
def getOrderProcessedFlag : Option OrderFlagNode → ProcessedFlagRec
  | none => ⟨false, none⟩
  | some o => ⟨strLower (strTrim (o.processed.getD "")) == "true", o.processedAt⟩

/-- Parsed variant config (`getVariantConfig`): trimmed metafield values
with `none` for an empty or missing one. -/
structure VariantCfg where
  mayaPlanId : Option String
  productType : Option String
  deriving DecidableEq, Repr

/-- A line item of the order payload.  `quantity` is the raw field;
`Number(item.quantity || 1)` makes a missing or zero quantity count
as `1`. -/
structure OrderLineItem where
  variantId : String
  quantity : Option Nat
  title : String
  variantTitle : String
  deriving DecidableEq, Repr

/-- `Number(item.quantity || 1)`. -/
def effQty : Option Nat → Nat
  | none => 1
  | some 0 => 1
  | some (n + 1) => n + 1

/-- The order payload fields the handler reads.  `id = ""` models a falsy
order id. -/
structure OrderPayload where
  id : String
  email : String
  shopifyCustomerId : Option String
  lineItems : List OrderLineItem
  deriving DecidableEq, Repr

/-- The fields of an eSIM returned by `createMayaEsim` that the handler
persists. -/
structure EsimCreated where
  uid : String
  iccid : String
  deriving DecidableEq, Repr

/-- Externally visible actions of one handler run: provider calls,
store writes, and notifications. -/
inductive Effect where
  | variantCfgRead (variantId : String)
  | customerMetafieldRead
  | createCustomerCall
  | saveMappingWrite
  | customerDetailsRead
  | topUpCall (iccid planTypeId : String)
  | createEsimCall (planTypeId : String)
  | saveEsimWrite (iccid : String)
  | emailAttempt
  | adminAlert
  | markProcessedWrite
  deriving DecidableEq, Repr

/-- Outcomes of the external calls one line item can make.  The per-unit
outcomes are indexed by the unit counter `q`. -/
structure ItemEnv where
  cfg : Except Unit VariantCfg
  customerDetails : Except Unit (List TEsim)
  topUpResults : Nat → Except Unit Unit
  createEsimResults : Nat → Except Unit EsimCreated
  saveEsimResults : Nat → Except Unit Unit

/-- Outcomes of the order-level external calls. -/
structure OrderEnv where
  flagRead : Except Unit ProcessedFlagRec
  storedMayaCustomerId : Except Unit (Option String)
  createCustomer : Except Unit String
  items : List ItemEnv

/-- `true` exactly when the call did not throw. -/
def exOk {α : Type} : Except Unit α → Bool
  | .ok _ => true
  | .error _ => false

/-- HTTP status and effect trace of a handler run. -/
structure HandlerResult where
  status : Nat
  effects : List Effect
  deriving DecidableEq, Repr

/-- One top-up unit of the recharge flow: the call always happens; a
thrown call flips the partial-failure flag and sends an admin alert. -/
def topUpUnit (iccid planTypeId : String) (res : Except Unit Unit) : Bool × List Effect :=
  match res with
  | .ok _ => (true, [.topUpCall iccid planTypeId])
  | .error _ => (false, [.topUpCall iccid planTypeId, .adminAlert])

/-- One provision unit: create the eSIM; on success, attempt the order
write and then the customer email (whose failure is ignored). -/
def provisionUnit (planId : String) (ienv : ItemEnv) (q : Nat) : Bool × List Effect :=
  match ienv.createEsimResults q with
  | .error _ => (false, [.createEsimCall planId])
  | .ok esim =>
    (exOk (ienv.saveEsimResults q),
     [.createEsimCall planId, .saveEsimWrite esim.iccid, .emailAttempt])

/-- Run `qty` units in order, conjoining the per-unit success flags and
concatenating their effects. -/
def runUnits (f : Nat → Bool × List Effect) (qty : Nat) : Bool × List Effect :=
  (List.range qty).foldl (fun acc q => (acc.1 && (f q).1, acc.2 ++ (f q).2)) (true, [])

/-- One iteration of the line-item loop of the order-paid handler:
returns whether the item left the partial-failure flag untouched,
together with the effects of the item. -/
def processItem (mayaCustomerId : Option String) (item : OrderLineItem) (ienv : ItemEnv) :
    Bool × List Effect :=
  match ienv.cfg with
  | .error _ => (false, [.variantCfgRead item.variantId])
  | .ok cfg =>
    match cfg.mayaPlanId with
    | none => (false, [.variantCfgRead item.variantId])
    | some mayaPlanId =>
      if cfg.productType = some "recharge" then
        if (mayaCustomerId.getD "") = "" then
          (false, [.variantCfgRead item.variantId, .adminAlert])
        else
          match ienv.customerDetails with
          | .error _ => (false, [.variantCfgRead item.variantId, .customerDetailsRead, .adminAlert])
          | .ok esims =>
            match selectTopUpTarget mayaPlanId esims with
            | none => (false, [.variantCfgRead item.variantId, .customerDetailsRead, .adminAlert])
            | some best =>
              if best.iccid = "" then
                (false, [.variantCfgRead item.variantId, .customerDetailsRead, .adminAlert])
              else
                let tpid := if best.planTypeId = "" then mayaPlanId else best.planTypeId
                let r := runUnits (fun q => topUpUnit best.iccid tpid (ienv.topUpResults q))
                  (effQty item.quantity)
                (r.1, .variantCfgRead item.variantId :: .customerDetailsRead :: r.2)
      else
        let r := runUnits (provisionUnit mayaPlanId ienv) (effQty item.quantity)
        (r.1, .variantCfgRead item.variantId :: r.2)

/-- The success conditions of one line item, stated directly: config fetch
succeeded, a plan id is mapped, and either every top-up unit succeeded
against a matched target, or every eSIM was created and persisted. -/
def itemOk (mayaCustomerId : Option String) (item : OrderLineItem) (ienv : ItemEnv) : Bool :=
  match ienv.cfg with
  | .error _ => false
  | .ok cfg =>
    match cfg.mayaPlanId with
    | none => false
    | some mayaPlanId =>
      if cfg.productType = some "recharge" then
        (mayaCustomerId.getD "") ≠ "" &&
        (match ienv.customerDetails with
         | .error _ => false
         | .ok esims =>
           match selectTopUpTarget mayaPlanId esims with
           | none => false
           | some best =>
             best.iccid ≠ "" &&
             (List.range (effQty item.quantity)).all fun q => exOk (ienv.topUpResults q))
      else
        (List.range (effQty item.quantity)).all fun q =>
          exOk (ienv.createEsimResults q) && exOk (ienv.saveEsimResults q)

/-- Step 1 of the handler: reuse the Maya customer id stored on the
Shopify customer when present and non-blank; otherwise create one (a
thrown creation aborts the order, yielding `none`), saving the mapping
when a Shopify customer exists. -/
def resolveCustomer (order : OrderPayload) (env : OrderEnv) : Option String × List Effect :=
  let cached : Option String × List Effect :=
    match order.shopifyCustomerId with
    | none => (none, [])
    | some _ =>
      match env.storedMayaCustomerId with
      | .ok v =>
        (if strTrim (v.getD "") = "" then none else some (strTrim (v.getD "")),
         [Effect.customerMetafieldRead])
      | .error _ => (none, [Effect.customerMetafieldRead])
  match cached.1 with
  | some cid => (some cid, cached.2)
  | none =>
    match env.createCustomer with
    | .error _ => (none, cached.2 ++ [.createCustomerCall])
    | .ok cid =>
      match order.shopifyCustomerId with
      | some _ => (some cid, cached.2 ++ [.createCustomerCall, .saveMappingWrite])
      | none => (some cid, cached.2 ++ [.createCustomerCall])

/-- The accumulation step of the line-item loop. -/
def itemStep (cid : String) (acc : Bool × List Effect) (pe : OrderLineItem × ItemEnv) :
    Bool × List Effect :=
  let r := processItem (some cid) pe.1 pe.2
  (acc.1 && r.1, acc.2 ++ r.2)

/-- The idempotency gate: the processed flag when the read succeeded, and
`false` when the read threw (the error is caught and ignored). -/
def orderSkip (env : OrderEnv) : Bool :=
  match env.flagRead with
  | .ok f => f.processed
  | .error _ => false

/-- The order-paid handler after signature verification (`src/index.js`):
exit on a missing order id, skip an already processed order, resolve the
Maya customer, process each line item, and mark the order processed
exactly when no step flipped the partial-failure flag.  Every exit path
responds 200. -/
def processOrder (order : OrderPayload) (env : OrderEnv) : HandlerResult :=
  if order.id = "" then ⟨200, []⟩
  else if orderSkip env then ⟨200, []⟩
  else
    match resolveCustomer order env with
    | (none, effs) => ⟨200, effs⟩
    | (some cid, effs) =>
      let r := (order.lineItems.zip env.items).foldl (itemStep cid) (true, effs)
      if r.1 then ⟨200, r.2 ++ [.markProcessedWrite]⟩
      else ⟨200, r.2⟩

/-! ## Order processing lock (later `services/shopify.js` revision) -/

/-- The stored `maya_processing_at` value: absent, a string `Date.parse`
rejects, or a date parsing to time `t`. -/
inductive DateVal where
  | missing
  | unparseable (raw : String)
  | iso (t : Int)
  deriving DecidableEq, Repr

/-- The lock metafields stored on an order record. -/
structure LockRecord where
  processing : Option String
  processingAt : DateVal
  processingToken : Option String
  deriving DecidableEq, Repr

/-- The default of `MAYA_LOCK_TTL_MS`: fifteen minutes. -/
def defaultLockTtlMs : Int := 15 * 60 * 1000

/-- `LOCK_TTL_MS`: the `MAYA_LOCK_TTL_MS` environment value when set,
otherwise the fifteen-minute default. -/
def lockTtlMs (envTtl : Option Int) : Int := envTtl.getD defaultLockTtlMs

/-- `isStale`: a missing or unparseable acquisition date is stale, and so
is one older than the TTL. -/
def isStale (d : DateVal) (now ttl : Int) : Bool :=
  match d with
  | .missing => true
  | .unparseable _ => true
  | .iso t => ttl < now - t

/-- The view `getOrderProcessingLock` returns. -/
structure LockView where
  processing : Bool
  processingAt : DateVal
  processingToken : Option String
  stale : Bool
  deriving DecidableEq, Repr

/-- `getOrderProcessingLock`: read the lock metafields; `stale` is
computed only for a held lock. -/
def getOrderProcessingLock (rec : LockRecord) (now ttl : Int) : LockView :=
  let processing := strLower (strTrim (rec.processing.getD "")) == "true"
  ⟨processing, rec.processingAt, rec.processingToken,
   if processing then isStale rec.processingAt now ttl else false⟩

/-- The metafields `tryAcquireOrderProcessingLock` writes: held flag,
fresh token, acquisition time. -/
def lockWriteFields (token : String) (now : Int) : LockRecord :=
  ⟨some "true", .iso now, some token⟩

inductive AcquireResult where
  | acquired (token : String)
  | lockedBusy
  | lostRace
  deriving DecidableEq, Repr

/-- `tryAcquireOrderProcessingLock` as one sequential run: read, bail out
on a held fresh lock, write the fresh token, then re-read and confirm.
`interference` is the store mutation other writers apply between the
write and the confirming re-read (`id` when nobody interferes). -/
def tryAcquireOrderProcessingLock (rec : LockRecord) (token : String) (now ttl : Int)
    (interference : LockRecord → LockRecord) : AcquireResult × LockRecord :=
  let before := getOrderProcessingLock rec now ttl
  if before.processing && !before.stale then (.lockedBusy, rec)
  else
    let storeAfter := interference (lockWriteFields token now)
    let after := getOrderProcessingLock storeAfter now ttl
    if after.processing && ((after.processingToken.getD "") == token)
    then (.acquired token, storeAfter)
    else (.lostRace, storeAfter)

inductive ReleaseResult where
  | released
  | notLocked
  | tokenMismatch
  deriving DecidableEq, Repr

/-- `releaseOrderProcessingLock`: succeed only on a held lock whose stored
token equals the callers token, clearing the held flag and the token
(the acquisition date is left untouched). -/
def releaseOrderProcessingLock (rec : LockRecord) (token : String) :
    ReleaseResult × LockRecord :=
  let currentToken := rec.processingToken.getD ""
  let processing := strLower (rec.processing.getD "") == "true"
  if !processing then (.notLocked, rec)
  else if currentToken ≠ token then (.tokenMismatch, rec)
  else (.released, { rec with processing := some "false", processingToken := some "" })

/-- Parameters of one concurrent acquire attempt. -/
structure AttemptCfg where
  token : String
  now : Int
  deriving DecidableEq, Repr

/-- Progress of one acquire attempt through its three store operations:
the initial read (with its local decision), the write, and the
confirming re-read. -/
inductive AcqPhase where
  | toRead
  | toWrite
  | toConfirm
  | finished (r : AcquireResult)
  deriving DecidableEq, Repr

structure AcqThread where
  cfg : AttemptCfg
  phase : AcqPhase
  deriving DecidableEq, Repr

/-- One atomic store operation of an acquire attempt.  Each `await` in
`tryAcquireOrderProcessingLock` is one step; the decisions between them
are local. -/
def stepAcquire (ttl : Int) (store : LockRecord) (th : AcqThread) : LockRecord × AcqThread :=
  match th.phase with
  | .toRead =>
    let v := getOrderProcessingLock store th.cfg.now ttl
    if v.processing && !v.stale then (store, { th with phase := .finished .lockedBusy })
    else (store, { th with phase := .toWrite })
  | .toWrite =>
    (lockWriteFields th.cfg.token th.cfg.now, { th with phase := .toConfirm })
  | .toConfirm =>
    let v := getOrderProcessingLock store th.cfg.now ttl
    if v.processing && ((v.processingToken.getD "") == th.cfg.token)
    then (store, { th with phase := .finished (.acquired th.cfg.token) })
    else (store, { th with phase := .finished .lostRace })
  | .finished _ => (store, th)

/-- Shared store plus the two concurrent acquire attempts. -/
structure TwoAcquireState where
  store : LockRecord
  a : AcqThread
  b : AcqThread
  deriving DecidableEq, Repr

/-- Run an interleaving of the two attempts: `true` steps attempt `a`,
`false` steps attempt `b`. -/
def runSchedule (ttl : Int) : List Bool → TwoAcquireState → TwoAcquireState
  | [], s => s
  | pickA :: rest, s =>
    if pickA then
      let r := stepAcquire ttl s.store s.a
      runSchedule ttl rest ⟨r.1, r.2, s.b⟩
    else
      let r := stepAcquire ttl s.store s.b
      runSchedule ttl rest ⟨r.1, s.a, r.2⟩

/-- A record with no lock metafields set. -/
def unlockedRecord : LockRecord := ⟨none, .missing, none⟩

/-! ## Concrete inputs used in closed statements -/

/-- A plan with 100 bytes remaining, activated. -/
def demoPlan100act : TPlan := ⟨"p100", "PT", some 100, "2024-01-01 10:00:00", some 0⟩

/-- A plan with 50 bytes remaining, not activated, later start. -/
def demoPlan50 : TPlan := ⟨"p50", "PT", some 50, "", some 10⟩

/-- A plan with 100 bytes remaining, not activated. -/
def demoPlan100n : TPlan := ⟨"p100n", "PT", some 100, "", some 0⟩

/-- An eSIM holding the activated 100-byte plan and the 50-byte plan. -/
def demoEsim1 : TEsim := ⟨"ICC1", "U1", "active", "", [demoPlan100act, demoPlan50]⟩

/-- An eSIM holding two 100-byte plans, only the second activated. -/
def demoEsim2 : TEsim := ⟨"ICC2", "U2", "active", "", [demoPlan100n, demoPlan100act]⟩

/-- Activated, network-active plan with no remaining data. -/
def cePlanA : UPlan := ⟨"A", some 1000, some 0, "2024-01-02 00:00:00", some 0, "ACTIVE"⟩

/-- Non-activated, network-inactive plan with remaining data. -/
def cePlanB : UPlan := ⟨"B", some 1000, some 5, "", some 100, "NOT_ACTIVE"⟩

/-- Quota 1,000,000 with 250,000 remaining: 75 percent used. -/
def usagePlanDemo : UPlan := ⟨"up1", some 1000000, some 250000, "2024-01-01 00:00:00", some 50, "ACTIVE"⟩

/-- A plan whose quota is zero, for the invalid-quota guard. -/
def zeroQuotaPlan : UPlan := ⟨"z", some 0, some 0, "", none, ""⟩

/-- A line-item environment where every external call succeeds. -/
def demoItemEnvOk : ItemEnv :=
  { cfg := .ok ⟨some "plan-1", some "esim"⟩
    customerDetails := .ok []
    topUpResults := fun _ => .ok ()
    createEsimResults := fun _ => .ok ⟨"uid-1", "iccid-1"⟩
    saveEsimResults := fun _ => .ok () }

/-- A one-item guest order. -/
def demoOrder : OrderPayload := ⟨"1001", "buyer@example.com", none, [⟨"v1", some 1, "Country", "Plan 1GB"⟩]⟩

/-- An order environment where every call succeeds and the order is
unprocessed. -/
def demoEnvOk : OrderEnv :=
  { flagRead := .ok ⟨false, none⟩
    storedMayaCustomerId := .ok none
    createCustomer := .ok "cust-1"
    items := [demoItemEnvOk] }

/-- Same environment with a throwing processed-flag read. -/
def demoEnvReadError : OrderEnv := { demoEnvOk with flagRead := .error () }

/-- The interleaving read-A, read-B, write-A, confirm-A, write-B,
confirm-B. -/
def raceSchedule : List Bool := [true, false, true, true, false, false]

/-- Both attempts start at their initial read over an unlocked record. -/
def raceStart : TwoAcquireState :=
  ⟨unlockedRecord, ⟨⟨"tA", 0⟩, .toRead⟩, ⟨⟨"tB", 0⟩, .toRead⟩⟩

/-! ## Theorems -/

theorem ERem.lt_irrefl (a : ERem) : ERem.lt a a = false := by
  cases a <;> simp [ERem.lt]

theorem candBefore_irrefl (a : Candidate) : candBefore a a = false := by
  simp [candBefore, ERem.lt_irrefl]

theorem candBefore_trans {a b c : Candidate}
    (h1 : candBefore a b = true) (h2 : candBefore b c = true) :
    candBefore a c = true := by
  obtain ⟨_, _, _, _, ra, aa, ta⟩ := a
  obtain ⟨_, _, _, _, rb, ab, tb⟩ := b
  obtain ⟨_, _, _, _, rc, ac, tc⟩ := c
  simp only [candBefore] at h1 h2 ⊢
  cases ra <;> cases rb <;> cases rc <;> cases aa <;> cases ab <;> cases ac <;>
    cases ta <;> cases tb <;> cases tc <;>
    simp_all [ERem.lt, timeValue] <;> omega

theorem candBefore_neg_trans {a b c : Candidate}
    (h1 : candBefore a b = false) (h2 : candBefore b c = false) :
    candBefore a c = false := by
  obtain ⟨_, _, _, _, ra, aa, ta⟩ := a
  obtain ⟨_, _, _, _, rb, ab, tb⟩ := b
  obtain ⟨_, _, _, _, rc, ac, tc⟩ := c
  simp only [candBefore] at h1 h2 ⊢
  cases ra <;> cases rb <;> cases rc <;> cases aa <;> cases ab <;> cases ac <;>
    cases ta <;> cases tb <;> cases tc <;>
    simp_all [ERem.lt, timeValue] <;> omega

/-- The fold that keeps the current best candidate returns a candidate that
no other enumerated candidate would displace. -/
theorem foldl_bestStep_spec (cs : List Candidate) (b : Candidate) :
    ∃ r, cs.foldl bestStep (some b) = some r ∧ (r = b ∨ r ∈ cs) ∧
      candBefore b r = false ∧ ∀ d ∈ cs, candBefore d r = false := by
  induction cs generalizing b with
  | nil => exact ⟨b, rfl, Or.inl rfl, candBefore_irrefl b, by simp⟩
  | cons c cs ih =>
    by_cases hcb : candBefore c b = true
    · obtain ⟨r, hr, hmem, hcr, hall⟩ := ih c
      refine ⟨r, by simpa [bestStep, hcb] using hr, ?_, ?_, ?_⟩
      · rcases hmem with h | h
        · exact Or.inr (by simp [h])
        · exact Or.inr (by simp [h])
      · by_contra hbr
        rw [Bool.not_eq_false] at hbr
        have : candBefore c r = true := candBefore_trans hcb hbr
        simp [this] at hcr
      · intro d hd
        rcases List.mem_cons.mp hd with h | h
        · exact h ▸ hcr
        · exact hall d h
    · rw [Bool.not_eq_true] at hcb
      obtain ⟨r, hr, hmem, hbr, hall⟩ := ih b
      refine ⟨r, by simpa [bestStep, hcb] using hr, ?_, hbr, ?_⟩
      · rcases hmem with h | h
        · exact Or.inl h
        · exact Or.inr (by simp [h])
      · intro d hd
        rcases List.mem_cons.mp hd with h | h
        · exact h ▸ candBefore_neg_trans hcb hbr
        · exact hall d h

/-- The selection result is one of the enumerated candidates and none of
them would displace it in the comparison chain of the loop. -/
theorem selectBest_spec (cs : List Candidate) :
    ∀ r, selectBest cs = some r →
      r ∈ cs ∧ ∀ d ∈ cs, candBefore d r = false := by
  intro r hr
  cases cs with
  | nil => simp [selectBest] at hr
  | cons b cs =>
    obtain ⟨r', hr', hmem, hbr, hall⟩ := foldl_bestStep_spec cs b
    rw [selectBest, List.foldl_cons] at hr
    have hbs : bestStep none b = some b := rfl
    rw [hbs, hr'] at hr
    obtain rfl : r' = r := by injection hr
    refine ⟨?_, ?_⟩
    · rcases hmem with h | h
      · simp [h]
      · exact List.mem_cons_of_mem _ h
    · intro d hd
      rcases List.mem_cons.mp hd with h | h
      · exact h ▸ hbr
      · exact hall d h

theorem ERem.lt_asymm {a b : ERem} (h : ERem.lt a b = true) : ERem.lt b a = false := by
  cases a <;> cases b <;> simp_all [ERem.lt]
  omega

theorem candBefore_of_lt_rem {c d : Candidate}
    (h : ERem.lt c.bytesRemaining d.bytesRemaining = true) :
    candBefore c d = true ∧ candBefore d c = false := by
  have h' := ERem.lt_asymm h
  constructor
  · simp [candBefore, h]
  · simp [candBefore, h, h']

theorem candBefore_of_activated {c d : Candidate}
    (hrem : c.bytesRemaining = d.bytesRemaining)
    (hc : c.activated = true) (hd : d.activated = false) :
    candBefore c d = true ∧ candBefore d c = false := by
  constructor
  · simp [candBefore, hrem, ERem.lt_irrefl, hc, hd]
  · simp [candBefore, hrem, ERem.lt_irrefl, hc, hd]

/-- C2.  The top-up target selection returns a candidate that no other
candidate (a plan of a surviving eSIM whose normalized plan-type id
matches the target) displaces under the comparison chain: strictly lower
remaining bytes always displace; at equal remaining bytes an activated
plan displaces a non-activated one; at remaining and activation ties an
earlier start time displaces.  Concretely, a 50-byte-remaining plan beats
an activated 100-byte one, and of two 100-byte plans the activated one
wins. -/
theorem topup_target_ranking :
    (∀ planId esims r, selectTopUpTarget planId esims = some r →
        r ∈ topUpCandidates planId esims ∧
        ∀ d ∈ topUpCandidates planId esims, candBefore d r = false) ∧
    (∀ c d : Candidate, ERem.lt c.bytesRemaining d.bytesRemaining = true →
        candBefore c d = true ∧ candBefore d c = false) ∧
    (∀ c d : Candidate, c.bytesRemaining = d.bytesRemaining → c.activated = true →
        d.activated = false → candBefore c d = true ∧ candBefore d c = false) ∧
    (selectTopUpTarget "PT" [demoEsim1]).map (fun c => c.planId) = some "p50" ∧
    (selectTopUpTarget "PT" [demoEsim2]).map (fun c => c.planId) = some "p100" := by
  refine ⟨?_, ?_, ?_, ?_, ?_⟩
  · intro planId esims r hr
    exact selectBest_spec (topUpCandidates planId esims) r hr
  · intro c d h
    exact candBefore_of_lt_rem h
  · intro c d hrem hc hd
    exact candBefore_of_activated hrem hc hd
  · decide
  · decide

/-- Closed instance of the ranking theorem: the selection over the first
demo eSIM yields a concrete winner that is a candidate and is displaced
by no candidate. -/
theorem topup_target_ranking_witness :
    ∃ r, r ∈ topUpCandidates "PT" [demoEsim1] ∧
      ∀ d ∈ topUpCandidates "PT" [demoEsim1], candBefore d r = false := by
  obtain ⟨hmin, -, -, -, -⟩ := topup_target_ranking
  exact ⟨_, hmin "PT" [demoEsim1] _ rfl⟩

theorem foldl_newest_spec (ps : List UPlan) (p : UPlan) :
    ∃ r, ps.foldl (fun best q => if timeOrZero best < timeOrZero q then q else best) p = r ∧
      (r = p ∨ r ∈ ps) ∧ timeOrZero p ≤ timeOrZero r ∧
      ∀ q ∈ ps, timeOrZero q ≤ timeOrZero r := by
  induction ps generalizing p with
  | nil => exact ⟨p, rfl, Or.inl rfl, le_refl _, by simp⟩
  | cons c ps ih =>
    by_cases h : timeOrZero p < timeOrZero c
    · obtain ⟨r, hr, hmem, hle, hall⟩ := ih c
      refine ⟨r, by simpa [h] using hr, ?_, le_trans (le_of_lt h) hle, ?_⟩
      · rcases hmem with h' | h'
        · exact Or.inr (by simp [h'])
        · exact Or.inr (by simp [h'])
      · intro q hq
        rcases List.mem_cons.mp hq with h' | h'
        · exact h' ▸ hle
        · exact hall q h'
    · obtain ⟨r, hr, hmem, hle, hall⟩ := ih p
      refine ⟨r, by simpa [h] using hr, ?_, hle, ?_⟩
      · rcases hmem with h' | h'
        · exact Or.inl h'
        · exact Or.inr (by simp [h'])
      · intro q hq
        rcases List.mem_cons.mp hq with h' | h'
        · exact h' ▸ le_trans (le_of_not_lt h) hle
        · exact hall q h'

theorem firstNewest_spec (l : List UPlan) (hne : l ≠ []) :
    ∃ r, firstNewest l = some r ∧ r ∈ l ∧ ∀ q ∈ l, timeOrZero q ≤ timeOrZero r := by
  cases l with
  | nil => exact absurd rfl hne
  | cons p ps =>
    obtain ⟨r, hr, hmem, hle, hall⟩ := foldl_newest_spec ps p
    refine ⟨r, by simpa [firstNewest] using hr, ?_, ?_⟩
    · rcases hmem with h | h
      · simp [h]
      · exact List.mem_cons_of_mem _ h
    · intro q hq
      rcases List.mem_cons.mp hq with h | h
      · exact h ▸ hle
      · exact hall q h

theorem selectedPool_ne_nil (plans : List UPlan) (h : plans ≠ []) :
    selectedPool plans ≠ [] := by
  unfold selectedPool
  cases hf : (pickPools plans).find? (fun l => !l.isEmpty) with
  | none => simpa using h
  | some l =>
    have hl := List.find?_some hf
    simp only [Bool.not_eq_true', List.isEmpty_eq_false] at hl
    simpa using hl

/-- C7 counterexample.  The specified first pool — activated plans on an
active network, with no remaining-data condition — is non-empty here,
yet the scanner picks a plan outside it: the implemented first two pools
also require remaining bytes, so the drained activated plan loses to a
non-activated plan that still has data. -/
theorem pick_current_plan_spec_pool_cex :
    specFirstPool [cePlanA, cePlanB] = [cePlanA] ∧
    uIsActivated cePlanA = true ∧ uIsActiveNet cePlanA = true ∧
    pickCurrentPlan [cePlanA, cePlanB] = some cePlanB ∧
    cePlanB ∉ specFirstPool [cePlanA, cePlanB] := by
  refine ⟨by decide, by decide, by decide, by decide, by decide⟩

/-- C7 amended.  The usage scanner selects the current plan from the
first non-empty of four pools — activated plans on an active network
with remaining bytes, activated plans with remaining bytes, any plans
with remaining bytes, all plans — taking the newest-by-start-time plan
of that pool, and returns `none` exactly on an empty input. -/
theorem pick_current_plan_pools (plans : List UPlan) :
    (plans = [] → pickCurrentPlan plans = none) ∧
    (∀ r, pickCurrentPlan plans = some r →
        r ∈ selectedPool plans ∧ ∀ q ∈ selectedPool plans, timeOrZero q ≤ timeOrZero r) ∧
    (plans ≠ [] → ∃ r, pickCurrentPlan plans = some r) := by
  refine ⟨?_, ?_, ?_⟩
  · intro h
    simp [pickCurrentPlan, h]
  · intro r hr
    unfold pickCurrentPlan at hr
    by_cases h : plans.isEmpty
    · simp [h] at hr
    · have hne : plans ≠ [] := by simpa [List.isEmpty_iff] using h
      obtain ⟨r', hr', hmem, hall⟩ := firstNewest_spec _ (selectedPool_ne_nil plans hne)
      rw [if_neg h, hr'] at hr
      obtain rfl : r' = r := by injection hr
      exact ⟨hmem, hall⟩
  · intro h
    obtain ⟨r, hr, -, -⟩ := firstNewest_spec _ (selectedPool_ne_nil plans h)
    refine ⟨r, ?_⟩
    have h' : plans.isEmpty = false := by simpa [List.isEmpty_iff] using h
    rw [pickCurrentPlan, h']
    simpa using hr

/-- Closed instance of the pool theorem at the counterexample input. -/
theorem pick_current_plan_pools_witness :
    cePlanB ∈ selectedPool [cePlanA, cePlanB] ∧
    ∀ q ∈ selectedPool [cePlanA, cePlanB], timeOrZero q ≤ timeOrZero cePlanB := by
  obtain ⟨-, hsel, -⟩ := pick_current_plan_pools [cePlanA, cePlanB]
  exact hsel cePlanB (by decide)

theorem jsRoundDiv_eq_round (n d : Int) (hd : 0 < d) :
    jsRoundDiv n d = round ((n : ℚ) / d) := by
  have h2d : ((2 * d).toNat : ℤ) = 2 * d := Int.toNat_of_nonneg (by omega)
  have key : ⌊((2 * n + d : ℤ) : ℚ) / (((2 * d).toNat : ℕ) : ℚ)⌋ =
      (2 * n + d) / ((2 * d).toNat : ℤ) := Rat.floor_intCast_div_natCast _ _
  rw [round_eq]
  have hcast : (((2 * d).toNat : ℕ) : ℚ) = ((2 * d : ℤ) : ℚ) := by
    exact_mod_cast congrArg (Int.cast : ℤ → ℚ) h2d
  have hd0 : (d : ℚ) ≠ 0 := by
    exact_mod_cast hd.ne'
  have hx : (n : ℚ) / d + 1 / 2 = ((2 * n + d : ℤ) : ℚ) / (((2 * d).toNat : ℕ) : ℚ) := by
    rw [hcast]
    push_cast
    field_simp
    ring
  rw [hx, key, h2d]
  exact Int.fdiv_eq_ediv _ (by omega)

theorem percentUsed_formula (q r : Int) (hq : 0 < q) :
    percentUsedOf q r = round (((q : ℚ) - r) / q * 100) := by
  rw [percentUsedOf, jsRoundDiv_eq_round _ _ hq]
  congr 1
  push_cast
  ring

/-- Behavior of one scan pass over one asset: the key set either stays or
gains exactly the dedup key; a delivered alert implies the key was fresh
and is now recorded; a recorded key or a missing email suppresses the
alert and leaves the key set unchanged. -/
theorem scanAsset_cases (st : List String) (o i e : String) (plans : List UPlan)
    (th : Int) (send : Except Unit Bool) :
    ((scanAsset st o i e plans th send).sentKeys = st ∨
      (st.contains (dedupeKey o i th) = false ∧
       (scanAsset st o i e plans th send).sentKeys = dedupeKey o i th :: st)) ∧
    ((scanAsset st o i e plans th send).alertDelivered = true →
      st.contains (dedupeKey o i th) = false ∧
      (scanAsset st o i e plans th send).sentKeys = dedupeKey o i th :: st) ∧
    (st.contains (dedupeKey o i th) = true →
      (scanAsset st o i e plans th send).alertDelivered = false ∧
      (scanAsset st o i e plans th send).sentKeys = st) ∧
    (e = "" →
      (scanAsset st o i e plans th send).alertDelivered = false ∧
      (scanAsset st o i e plans th send).sentKeys = st) := by
  cases hp : pickCurrentPlan plans with
  | none => simp [scanAsset, hp]
  | some p =>
    cases hq : p.dataQuotaBytes with
    | none => simp [scanAsset, hp, hq]
    | some t =>
      by_cases h1 : t ≤ 0
      · simp [scanAsset, hp, hq, h1]
      · by_cases h2 : percentUsedOf t (p.dataBytesRemaining.getD 0) < th
        · simp [scanAsset, hp, hq, h1, h2]
        · by_cases h3 : dedupeKey o i th ∈ st
          · simp [scanAsset, hp, hq, h1, h2, h3]
          · by_cases h4 : e = ""
            · simp [scanAsset, hp, hq, h1, h2, h3, h4]
            · cases send with
              | error u => simp [scanAsset, hp, hq, h1, h2, h3, h4]
              | ok delivered => simp [scanAsset, hp, hq, h1, h2, h3, h4]

theorem iterScan_zero_of_contains (o i e : String) (plans : List UPlan) (th : Int)
    (sends : List (Except Unit Bool)) :
    ∀ st, st.contains (dedupeKey o i th) = true →
      (iterScan st o i e plans th sends).1 = 0 := by
  induction sends with
  | nil => intro st _; rfl
  | cons send sends ih =>
    intro st h
    obtain ⟨-, -, hcont, -⟩ := scanAsset_cases st o i e plans th send
    obtain ⟨hdel, hkeys⟩ := hcont h
    simp [iterScan, hdel, hkeys, ih st h]

theorem iterScan_le_one (o i e : String) (plans : List UPlan) (th : Int)
    (sends : List (Except Unit Bool)) :
    ∀ st, (iterScan st o i e plans th sends).1 ≤ 1 := by
  induction sends with
  | nil => intro st; simp [iterScan]
  | cons send sends ih =>
    intro st
    obtain ⟨-, hdel, -, -⟩ := scanAsset_cases st o i e plans th send
    cases hd : (scanAsset st o i e plans th send).alertDelivered with
    | true =>
      obtain ⟨-, hkeys⟩ := hdel hd
      have hzero := iterScan_zero_of_contains o i e plans th sends
        (scanAsset st o i e plans th send).sentKeys
        (by rw [hkeys]; simp)
      simp [iterScan, hd, hzero]
    | false =>
      simpa [iterScan, hd] using ih (scanAsset st o i e plans th send).sentKeys

/-- C9.  A recorded dedup key suppresses the alert and leaves the key set
unchanged; a missing buyer email suppresses the alert without recording
the key (so the alert stays eligible); and over any number of scan
passes with the same order, asset and threshold, at most one alert is
ever delivered. -/
theorem usage_alert_at_most_once (st : List String) (orderId iccid email : String)
    (plans : List UPlan) (threshold : Int) :
    (st.contains (dedupeKey orderId iccid threshold) = true →
      ∀ send, (scanAsset st orderId iccid email plans threshold send).alertDelivered = false ∧
        (scanAsset st orderId iccid email plans threshold send).sentKeys = st) ∧
    (email = "" →
      ∀ send, (scanAsset st orderId iccid email plans threshold send).alertDelivered = false ∧
        (scanAsset st orderId iccid email plans threshold send).sentKeys = st) ∧
    (∀ sends, (iterScan st orderId iccid email plans threshold sends).1 ≤ 1) := by
  refine ⟨?_, ?_, ?_⟩
  · intro h send
    obtain ⟨-, -, hcont, -⟩ := scanAsset_cases st orderId iccid email plans threshold send
    exact hcont h
  · intro h send
    obtain ⟨-, -, -, hmail⟩ := scanAsset_cases st orderId iccid email plans threshold send
    exact hmail h
  · intro sends
    exact iterScan_le_one orderId iccid email plans threshold sends st

/-- Closed instance of the dedup theorem: with the key already recorded,
a pass over the 75-percent-used demo asset delivers nothing and leaves
the key set unchanged. -/
theorem usage_alert_at_most_once_witness :
    (scanAsset [dedupeKey "O1" "ICC1" 70] "O1" "ICC1" "a@b.c"
        [usagePlanDemo] 70 (.ok true)).alertDelivered = false ∧
    (scanAsset [dedupeKey "O1" "ICC1" 70] "O1" "ICC1" "a@b.c"
        [usagePlanDemo] 70 (.ok true)).sentKeys = [dedupeKey "O1" "ICC1" 70] := by
  obtain ⟨h1, -, -⟩ := usage_alert_at_most_once [dedupeKey "O1" "ICC1" 70] "O1" "ICC1"
    "a@b.c" [usagePlanDemo] 70
  exact h1 (by decide) (.ok true)

/-- C8.  The scan skips an asset whose quota is non-finite or
non-positive without sending or recording anything; the percentage is
`round((quota - remaining) / quota * 100)`; and concretely quota
1,000,000 with 250,000 remaining gives 75 percent, which fires the alert
at threshold 70. -/
theorem usage_percent_guard :
    (∀ st o i e plans th send plan,
        pickCurrentPlan plans = some plan →
        plan.dataQuotaBytes.getD 0 ≤ 0 →
        scanAsset st o i e plans th send = ⟨.invalidQuota, false, st⟩) ∧
    (∀ q r : Int, 0 < q → percentUsedOf q r = round (((q : ℚ) - r) / q * 100)) ∧
    percentUsedOf 1000000 250000 = 75 ∧
    (scanAsset [] "O1" "ICC1" "a@b.c" [usagePlanDemo] 70 (.ok true)).outcome =
      .alertSent true := by
  refine ⟨?_, ?_, by decide, by decide⟩
  · intro st o i e plans th send plan hplan hq
    cases hdq : plan.dataQuotaBytes with
    | none => simp [scanAsset, hplan, hdq]
    | some t =>
      rw [hdq] at hq
      simp only [Option.getD_some] at hq
      simp [scanAsset, hplan, hdq, hq]
  · intro q r hq
    exact percentUsed_formula q r hq

/-- Closed instance of the guard theorem: the formula at quota 4,
remaining 1, and the skip on a zero-quota plan. -/
theorem usage_percent_guard_witness :
    percentUsedOf 4 1 = round (((4 : ℚ) - 1) / 4 * 100) ∧
    scanAsset [] "O2" "ICC2" "a@b.c" [zeroQuotaPlan] 20 (.ok true) =
      ⟨.invalidQuota, false, []⟩ := by
  obtain ⟨hguard, hform, -, -⟩ := usage_percent_guard
  exact ⟨hform 4 1 (by decide),
    hguard [] "O2" "ICC2" "a@b.c" [zeroQuotaPlan] 20 (.ok true) zeroQuotaPlan
      (by decide) (by decide)⟩

/-- C1.  An order whose persisted `maya_processed` metafield trims and
lower-cases to `true` makes the handler terminate with HTTP 200 and an
empty effect trace: no provider call (customer creation, eSIM creation
or top-up) and no metadata write of any kind. -/
theorem idempotent_replay_no_effects (order : OrderPayload) (env : OrderEnv)
    (node : OrderFlagNode)
    (hpersisted : strLower (strTrim (node.processed.getD "")) = "true") :
    processOrder order { env with flagRead := .ok (getOrderProcessedFlag (some node)) } =
      ⟨200, []⟩ := by
  have hskip : orderSkip { env with flagRead := .ok (getOrderProcessedFlag (some node)) } = true := by
    unfold orderSkip getOrderProcessedFlag
    dsimp only
    simp [hpersisted]
  unfold processOrder
  rw [hskip]
  split
  · rfl
  · rfl

/-- Closed instance of the replay theorem at a stored `true` flag. -/
theorem idempotent_replay_no_effects_witness :
    processOrder demoOrder
      { demoEnvOk with flagRead := .ok (getOrderProcessedFlag (some ⟨some "true", some "t"⟩)) } =
      ⟨200, []⟩ :=
  idempotent_replay_no_effects demoOrder demoEnvOk ⟨some "true", some "t"⟩ (by decide)

theorem topUpUnit_fst (iccid tpid : String) (res : Except Unit Unit) :
    (topUpUnit iccid tpid res).1 = exOk res := by
  cases res <;> rfl

theorem provisionUnit_fst (planId : String) (ienv : ItemEnv) (q : Nat) :
    (provisionUnit planId ienv q).1 =
      (exOk (ienv.createEsimResults q) && exOk (ienv.saveEsimResults q)) := by
  unfold provisionUnit
  cases ienv.createEsimResults q <;> simp [exOk]

theorem runUnits_fst (f : Nat → Bool × List Effect) (qty : Nat) :
    (runUnits f qty).1 = (List.range qty).all fun q => (f q).1 := by
  suffices h : ∀ (l : List Nat) (b : Bool) (es : List Effect),
      (l.foldl (fun acc q => (acc.1 && (f q).1, acc.2 ++ (f q).2)) (b, es)).1 =
        (b && l.all fun q => (f q).1) by
    simpa [runUnits] using h (List.range qty) true []
  intro l
  induction l with
  | nil => intro b es; simp
  | cons q l ih =>
    intro b es
    simp [ih, Bool.and_assoc]

theorem runUnits_not_mem (f : Nat → Bool × List Effect) (qty : Nat) (x : Effect)
    (hf : ∀ q, x ∉ (f q).2) : x ∉ (runUnits f qty).2 := by
  suffices h : ∀ (l : List Nat) (b : Bool) (es : List Effect), x ∉ es →
      x ∉ (l.foldl (fun acc q => (acc.1 && (f q).1, acc.2 ++ (f q).2)) (b, es)).2 by
    exact h (List.range qty) true [] (by simp)
  intro l
  induction l with
  | nil =>
    intro b es h
    simpa using h
  | cons q l ih =>
    intro b es h
    exact ih _ _ (by simp [h, hf q])

theorem processItem_fst (m : Option String) (item : OrderLineItem) (ienv : ItemEnv) :
    (processItem m item ienv).1 = itemOk m item ienv := by
  unfold processItem itemOk
  cases ienv.cfg with
  | error u => rfl
  | ok cfg =>
    dsimp only
    cases cfg.mayaPlanId with
    | none => rfl
    | some planId =>
      dsimp only
      by_cases hr : cfg.productType = some "recharge"
      · rw [if_pos hr, if_pos hr]
        by_cases hm : (m.getD "") = ""
        · simp [hm]
        · rw [if_neg hm]
          cases ienv.customerDetails with
          | error u => simp [hm]
          | ok esims =>
            dsimp only
            cases selectTopUpTarget planId esims with
            | none => simp [hm]
            | some best =>
              dsimp only
              by_cases hic : best.iccid = ""
              · simp [hm, hic]
              · simp [hm, hic, runUnits_fst, topUpUnit_fst]
      · rw [if_neg hr, if_neg hr]
        simp [runUnits_fst, provisionUnit_fst]

theorem processItem_no_mark (m : Option String) (item : OrderLineItem) (ienv : ItemEnv) :
    Effect.markProcessedWrite ∉ (processItem m item ienv).2 := by
  unfold processItem
  cases ienv.cfg with
  | error u => simp
  | ok cfg =>
    dsimp only
    cases cfg.mayaPlanId with
    | none => simp
    | some planId =>
      dsimp only
      by_cases hr : cfg.productType = some "recharge"
      · rw [if_pos hr]
        by_cases hm : (m.getD "") = ""
        · simp [hm]
        · rw [if_neg hm]
          cases ienv.customerDetails with
          | error u => simp
          | ok esims =>
            dsimp only
            cases selectTopUpTarget planId esims with
            | none => simp
            | some best =>
              dsimp only
              by_cases hic : best.iccid = ""
              · simp [hic]
              · have hu : Effect.markProcessedWrite ∉
                    (runUnits (fun q => topUpUnit best.iccid
                      (if best.planTypeId = "" then planId else best.planTypeId)
                      (ienv.topUpResults q)) (effQty item.quantity)).2 := by
                  refine runUnits_not_mem _ _ _ fun q => ?_
                  cases ienv.topUpResults q <;> simp [topUpUnit]
                simp [hic, hu]
      · rw [if_neg hr]
        have hu : Effect.markProcessedWrite ∉
            (runUnits (provisionUnit planId ienv) (effQty item.quantity)).2 := by
          refine runUnits_not_mem _ _ _ fun q => ?_
          unfold provisionUnit
          cases ienv.createEsimResults q <;> simp
        simp [hu]

theorem resolveCustomer_no_mark (order : OrderPayload) (env : OrderEnv) :
    Effect.markProcessedWrite ∉ (resolveCustomer order env).2 := by
  unfold resolveCustomer
  cases order.shopifyCustomerId with
  | none =>
    dsimp only
    cases env.createCustomer <;> simp
  | some sid =>
    dsimp only
    cases env.storedMayaCustomerId with
    | error u =>
      dsimp only
      cases env.createCustomer <;> simp
    | ok v =>
      dsimp only
      by_cases ht : strTrim (v.getD "") = ""
      · cases env.createCustomer <;> simp [ht]
      · simp [ht]

theorem itemsFold_fst (cid : String) (l : List (OrderLineItem × ItemEnv)) :
    ∀ (b : Bool) (es : List Effect),
      (l.foldl (itemStep cid) (b, es)).1 =
        (b && l.all fun pe => itemOk (some cid) pe.1 pe.2) := by
  induction l with
  | nil => intro b es; simp
  | cons pe l ih =>
    intro b es
    rw [List.foldl_cons]
    have hstep : itemStep cid (b, es) pe =
        (b && (processItem (some cid) pe.1 pe.2).1,
         es ++ (processItem (some cid) pe.1 pe.2).2) := rfl
    rw [hstep, ih]
    simp [processItem_fst, Bool.and_assoc]

theorem itemsFold_mark (cid : String) (l : List (OrderLineItem × ItemEnv)) :
    ∀ (b : Bool) (es : List Effect),
      (Effect.markProcessedWrite ∈ (l.foldl (itemStep cid) (b, es)).2 ↔
        Effect.markProcessedWrite ∈ es) := by
  induction l with
  | nil => intro b es; simp
  | cons pe l ih =>
    intro b es
    rw [List.foldl_cons]
    have hstep : itemStep cid (b, es) pe =
        (b && (processItem (some cid) pe.1 pe.2).1,
         es ++ (processItem (some cid) pe.1 pe.2).2) := rfl
    rw [hstep, ih]
    simp [processItem_no_mark]

/-- C3.  Once the handler is past the idempotency gate and customer
resolution, the processed-flag write happens exactly when every line
item succeeded: any failed item (config fetch, missing plan id, missing
customer, details fetch, unmatched target, failed top-up unit, failed
eSIM creation, or failed persist of a created eSIM) blocks it, and it is
issued only when the partial-failure flag was never raised. -/
theorem mark_processed_iff_items_ok (order : OrderPayload) (env : OrderEnv) (cid : String)
    (hid : order.id ≠ "")
    (hflag : ∀ f, env.flagRead = .ok f → f.processed = false)
    (hcust : (resolveCustomer order env).1 = some cid) :
    Effect.markProcessedWrite ∈ (processOrder order env).effects ↔
      ((order.lineItems.zip env.items).all fun pe => itemOk (some cid) pe.1 pe.2) = true := by
  have hskip : orderSkip env = false := by
    unfold orderSkip
    cases hf : env.flagRead with
    | ok f => exact hflag f hf
    | error u => rfl
  have hrc : resolveCustomer order env = (some cid, (resolveCustomer order env).2) := by
    rw [← hcust]
  unfold processOrder
  rw [if_neg hid, hskip, if_neg (by simp), hrc]
  by_cases hall : ((order.lineItems.zip env.items).all fun pe =>
      itemOk (some cid) pe.1 pe.2) = true
  · have hr1 : ((order.lineItems.zip env.items).foldl (itemStep cid)
        (true, (resolveCustomer order env).2)).1 = true := by
      rw [itemsFold_fst, hall, Bool.and_true]
    simp [hr1, hall]
  · have hr1 : ((order.lineItems.zip env.items).foldl (itemStep cid)
        (true, (resolveCustomer order env).2)).1 = false := by
      rw [itemsFold_fst]
      simpa using hall
    have hmark := itemsFold_mark cid (order.lineItems.zip env.items) true
      (resolveCustomer order env).2
    simp only [hr1, if_false, Bool.false_eq_true]
    rw [hmark]
    simp [resolveCustomer_no_mark, hall]

/-- Closed instance of the mark-processed theorem at the all-success demo
order. -/
theorem mark_processed_iff_items_ok_witness :
    Effect.markProcessedWrite ∈ (processOrder demoOrder demoEnvOk).effects ↔
      ((demoOrder.lineItems.zip demoEnvOk.items).all fun pe =>
        itemOk (some "cust-1") pe.1 pe.2) = true :=
  mark_processed_iff_items_ok demoOrder demoEnvOk "cust-1" (by decide)
    (fun f h => by cases h; rfl) rfl

/-- C10.  A `null` order yields an unprocessed flag; a throwing flag read
is caught and the handler behaves exactly as if the order were
unprocessed, proceeding to customer resolution and provisioning — shown
concretely by the eSIM-creation call in the trace of a run whose flag
read throws. -/
theorem flag_read_failure_degrades (order : OrderPayload) (env : OrderEnv) :
    getOrderProcessedFlag none = ⟨false, none⟩ ∧
    processOrder order { env with flagRead := .error () } =
      processOrder order { env with flagRead := .ok ⟨false, none⟩ } ∧
    Effect.createEsimCall "plan-1" ∈ (processOrder demoOrder demoEnvReadError).effects := by
  refine ⟨rfl, rfl, by decide⟩

/-- C4 counterexample.  An interleaving in which both attempts read the
unlocked record, then attempt A writes and confirms, then attempt B
writes and confirms: both confirming re-reads see their own token, so
both return `acquired`.  The write-then-re-read check only catches an
overwrite that lands before the re-read. -/
theorem lock_race_both_acquire :
    (runSchedule 900000 raceSchedule raceStart).a.phase =
      .finished (.acquired "tA") ∧
    (runSchedule 900000 raceSchedule raceStart).b.phase =
      .finished (.acquired "tB") := by
  decide

theorem tryAcquire_not_blocked (rec : LockRecord) (token : String) (now ttl : Int)
    (interference : LockRecord → LockRecord)
    (hcond : ((getOrderProcessingLock rec now ttl).processing &&
              !(getOrderProcessingLock rec now ttl).stale) = false) :
    tryAcquireOrderProcessingLock rec token now ttl interference =
      (if (getOrderProcessingLock (interference (lockWriteFields token now)) now ttl).processing &&
          (((getOrderProcessingLock (interference (lockWriteFields token now)) now ttl).processingToken.getD "") == token)
       then (.acquired token, interference (lockWriteFields token now))
       else (.lostRace, interference (lockWriteFields token now))) := by
  unfold tryAcquireOrderProcessingLock
  dsimp only
  rw [hcond]
  simp

/-- C4 amended.  A held, fresh lock is reported busy with no write; an
acquire past that gate returns `acquired` exactly when the confirming
re-read still shows a held lock carrying the token just written (with no
interfering write, it always does); and two confirmation re-reads
against the same stored record cannot both succeed for distinct tokens —
so at most one of two racing attempts acquires provided both confirming
re-reads observe the same stored record, as they do whenever both writes
land before either re-read.  (Without that proviso the exclusion can
fail: in the counterexample schedule the second attempt writes and
re-reads only after the first attempt's confirming re-read, and both
acquire.) -/
theorem lock_acquire_confirm (rec : LockRecord) (token : String) (now ttl : Int)
    (interference : LockRecord → LockRecord) :
    ((getOrderProcessingLock rec now ttl).processing = true →
      (getOrderProcessingLock rec now ttl).stale = false →
      tryAcquireOrderProcessingLock rec token now ttl interference = (.lockedBusy, rec)) ∧
    (((getOrderProcessingLock rec now ttl).processing = true →
        (getOrderProcessingLock rec now ttl).stale = true) →
      ((tryAcquireOrderProcessingLock rec token now ttl interference).1 = .acquired token ↔
        (getOrderProcessingLock (interference (lockWriteFields token now)) now ttl).processing = true ∧
        (interference (lockWriteFields token now)).processingToken.getD "" = token)) ∧
    (((getOrderProcessingLock rec now ttl).processing = true →
        (getOrderProcessingLock rec now ttl).stale = true) →
      (tryAcquireOrderProcessingLock rec token now ttl id).1 = .acquired token) ∧
    (∀ (store : LockRecord) (tA tB : String) (nA nB : Int), tA ≠ tB →
      ¬((stepAcquire ttl store ⟨⟨tA, nA⟩, .toConfirm⟩).2.phase = .finished (.acquired tA) ∧
        (stepAcquire ttl store ⟨⟨tB, nB⟩, .toConfirm⟩).2.phase = .finished (.acquired tB))) := by
  have hnotblocked : ((getOrderProcessingLock rec now ttl).processing = true →
      (getOrderProcessingLock rec now ttl).stale = true) →
      ((getOrderProcessingLock rec now ttl).processing &&
        !(getOrderProcessingLock rec now ttl).stale) = false := by
    intro h
    cases hp : (getOrderProcessingLock rec now ttl).processing with
    | false => simp
    | true => simp [h hp]
  have hview : ∀ s : LockRecord, (getOrderProcessingLock s now ttl).processingToken =
      s.processingToken := fun s => rfl
  refine ⟨?_, ?_, ?_, ?_⟩
  · intro h1 h2
    unfold tryAcquireOrderProcessingLock
    dsimp only
    rw [h1, h2]
    simp
  · intro h
    rw [tryAcquire_not_blocked rec token now ttl interference (hnotblocked h)]
    constructor
    · intro hacq
      cases hcond2 : ((getOrderProcessingLock (interference (lockWriteFields token now)) now ttl).processing &&
          (((getOrderProcessingLock (interference (lockWriteFields token now)) now ttl).processingToken.getD "") == token)) with
      | true =>
        simp only [Bool.and_eq_true] at hcond2
        refine ⟨hcond2.1, ?_⟩
        have := hcond2.2
        rw [hview] at this
        simpa using this
      | false =>
        rw [hcond2] at hacq
        simp at hacq
    · intro hc
      have hcond2 : ((getOrderProcessingLock (interference (lockWriteFields token now)) now ttl).processing &&
          (((getOrderProcessingLock (interference (lockWriteFields token now)) now ttl).processingToken.getD "") == token)) = true := by
        rw [hview]
        simp [hc.1, hc.2]
      rw [hcond2]
      simp
  · intro h
    rw [tryAcquire_not_blocked rec token now ttl id (hnotblocked h)]
    have hstr : (strLower (strTrim "true") == "true") = true := by decide
    have hcond2 : ((getOrderProcessingLock (id (lockWriteFields token now)) now ttl).processing &&
        (((getOrderProcessingLock (id (lockWriteFields token now)) now ttl).processingToken.getD "") == token)) = true := by
      rw [hview]
      simp [getOrderProcessingLock, lockWriteFields, hstr]
    rw [hcond2]
    simp
  · intro store tA tB nA nB hne hpair
    obtain ⟨hA, hB⟩ := hpair
    simp only [stepAcquire] at hA hB
    split at hA
    case isFalse => simp at hA
    case isTrue hcA =>
      split at hB
      case isFalse => simp at hB
      case isTrue hcB =>
        simp only [Bool.and_eq_true] at hcA hcB
        have h1 : store.processingToken.getD "" = tA := by
          have := hcA.2
          simpa [getOrderProcessingLock] using this
        have h2 : store.processingToken.getD "" = tB := by
          have := hcB.2
          simpa [getOrderProcessingLock] using this
        exact hne (h1 ▸ h2)

/-- Closed instance of the acquire theorem: an uncontended acquire over an
unlocked record succeeds. -/
theorem lock_acquire_confirm_witness :
    (tryAcquireOrderProcessingLock unlockedRecord "tA" 0 900000 id).1 = .acquired "tA" := by
  obtain ⟨-, -, hfree, -⟩ := lock_acquire_confirm unlockedRecord "tA" 0 900000 id
  exact hfree (by decide)

/-- C5.  A held lock whose acquisition date is missing, unparseable, or
older than the TTL (default fifteen minutes) is stale: the acquire
attempt does not report it busy but takes it over. -/
theorem stale_lock_takeover (rec : LockRecord) (token : String) (now ttl : Int) :
    ((getOrderProcessingLock rec now ttl).processing = true →
      isStale rec.processingAt now ttl = true →
      (tryAcquireOrderProcessingLock rec token now ttl id).1 = .acquired token) ∧
    isStale .missing now ttl = true ∧
    (∀ raw, isStale (.unparseable raw) now ttl = true) ∧
    (∀ t, isStale (.iso t) now ttl = decide (ttl < now - t)) ∧
    lockTtlMs none = 900000 := by
  refine ⟨?_, rfl, fun raw => rfl, fun t => rfl, rfl⟩
  intro hp hstale
  have hview : (getOrderProcessingLock rec now ttl).stale = true := by
    simp [getOrderProcessingLock] at hp ⊢
    simp [hp, hstale]
  have hcond : ((getOrderProcessingLock rec now ttl).processing &&
      !(getOrderProcessingLock rec now ttl).stale) = false := by
    simp [hview]
  rw [tryAcquire_not_blocked rec token now ttl id hcond]
  have hpw : (getOrderProcessingLock (lockWriteFields token now) now ttl).processing = true := rfl
  have htok : (getOrderProcessingLock (lockWriteFields token now) now ttl).processingToken = some token := rfl
  simp [hpw, htok]

/-- Closed instance of the takeover theorem: a held lock with no
acquisition date is taken over. -/
theorem stale_lock_takeover_witness :
    (tryAcquireOrderProcessingLock ⟨some "true", .missing, some "old"⟩ "tN" 5 900000 id).1 =
      .acquired "tN" := by
  obtain ⟨htake, -, -, -, -⟩ := stale_lock_takeover ⟨some "true", .missing, some "old"⟩ "tN" 5 900000
  exact htake (by decide) (by decide)

/-- C6.  Release succeeds only on a held lock whose stored token equals
the callers token, clearing the held flag and the token; otherwise it
reports `not_locked` (lock not held) or `token_mismatch` (held with a
different token) and leaves the record unchanged. -/
theorem release_token_guard (rec : LockRecord) (token : String) :
    ((strLower (rec.processing.getD "") == "true") = false →
      releaseOrderProcessingLock rec token = (.notLocked, rec)) ∧
    ((strLower (rec.processing.getD "") == "true") = true →
      rec.processingToken.getD "" ≠ token →
      releaseOrderProcessingLock rec token = (.tokenMismatch, rec)) ∧
    ((strLower (rec.processing.getD "") == "true") = true →
      rec.processingToken.getD "" = token →
      releaseOrderProcessingLock rec token =
        (.released, { rec with processing := some "false", processingToken := some "" }) ∧
      ∀ now ttl, (getOrderProcessingLock (releaseOrderProcessingLock rec token).2 now ttl).processing = false ∧
        (releaseOrderProcessingLock rec token).2.processingToken = some "") := by
  refine ⟨?_, ?_, ?_⟩
  · intro h
    simp [releaseOrderProcessingLock, h]
  · intro h hne
    simp [releaseOrderProcessingLock, h, hne]
  · intro h heq
    have hrel : releaseOrderProcessingLock rec token =
        (.released, { rec with processing := some "false", processingToken := some "" }) := by
      simp [releaseOrderProcessingLock, h, heq]
    refine ⟨hrel, fun now ttl => ?_⟩
    rw [hrel]
    exact ⟨rfl, rfl⟩

/-- Closed instance of the release theorem: releasing a held lock with
the matching token clears it. -/
theorem release_token_guard_witness :
    releaseOrderProcessingLock ⟨some "true", .iso 0, some "tok"⟩ "tok" =
      (.released, { processing := some "false", processingAt := .iso 0, processingToken := some "" }) := by
  obtain ⟨-, -, hok⟩ := release_token_guard ⟨some "true", .iso 0, some "tok"⟩ "tok"
  exact (hok (by decide) (by decide)).1

end QEsim
